import Mathlib

/-!
Verification of the reconciliation engine of the xray-admin repository.

The definitions below are a shallow embedding of the Go sources:
  * `User`, `Summary` mirror `internal/store/store.go` and
    `internal/syncer` (`Summary` has exactly the four counters of the code).
  * `changed`, `diffAdds`/`diffUpds`/`delScan`/`diffDels`/`diff` mirror
    the `diff` and `changed` functions of the syncer
    (`internal/syncer/syncer.go`, identical in every revision present).
  * `addUserAll`, `removeAll`, `alreadyExists` mirror the xray gRPC client
    (`Client.addUserAll`, `Client.Remove`, `alreadyExists`) of the
    revision with per-tag already-exists tolerance.
  * `addUser`, `withRetry`, `execJob`, `syncRun` mirror `Sync` of the
    working-copy revision of the syncer (the one that keeps an in-memory
    `state` map and persists it with a single `db.ReplaceAll(state)` after
    all workers finish).  Go maps are embedded as association lists with
    no duplicate keys; the concurrent worker pool is embedded as a
    sequential fold over the job list, which is faithful for the
    properties proved here because the diff produces at most one job per
    ID and every job increments exactly one counter.
  * RPC outcomes are abstracted by an oracle `cp : tag → call → Option
    errorMessage`; store and snapshot writes are recorded as explicit
    effect lists so that frame properties are statable.
-/

namespace XrayAdmin

/-- User record, from `internal/store/store.go` (`Level` is a `uint32` in Go;
no arithmetic is performed on it, so `Nat` is a faithful embedding). -/
structure User where
  UID : String
  Email : String
  UUID : String
  Proto : String
  Level : Nat
  Flow : String
deriving DecidableEq, Repr

/-- A Go `map[string]store.User`, embedded as an association list whose keys
are pairwise distinct. -/
abbrev UserMap := List (String × User)

/-- Go map lookup `m[uid]` (first matching key; unique under `NodupKeys`). -/
def lookupUser : UserMap → String → Option User
  | [], _ => none
  | (k, v) :: rest, uid => if k = uid then some v else lookupUser rest uid

/-- The embedded list has pairwise distinct keys, as a Go map does. -/
def NodupKeys (m : UserMap) : Prop := (m.map Prod.fst).Nodup

/-- Every stored record carries its own key in its `UID` field, as the maps
built by `buildUsers` in `cmd/xraysync/main.go` and by the store do. -/
def WFMap (m : UserMap) : Prop := ∀ p ∈ m, p.2.UID = p.1

instance : DecidablePred NodupKeys := fun m =>
  inferInstanceAs (Decidable (m.map Prod.fst).Nodup)

instance : DecidablePred WFMap := fun m =>
  inferInstanceAs (Decidable (∀ p ∈ m, p.2.UID = p.1))

/-- `changed` from `internal/syncer/syncer.go`: field-wise difference over
UUID, Proto, Level and Flow (Flow unconditionally, for every protocol). -/
def changed (a b : User) : Bool :=
  a.UUID != b.UUID || a.Proto != b.Proto || a.Level != b.Level || a.Flow != b.Flow

/-- ASCII lower-casing of one character (the inputs classified by the code
are ASCII status messages and mode strings). -/
def asciiLower (c : Char) : Char :=
  if 'A' ≤ c ∧ c ≤ 'Z' then Char.ofNat (c.toNat + 32) else c

/-- Lower-case a character list. -/
def lowerChars (l : List Char) : List Char := l.map asciiLower

/-- `strings.EqualFold` as used on the mode strings. -/
def eqFold (a b : String) : Bool := lowerChars a.data == lowerChars b.data

/-- `strings.TrimSpace(mode) == ""` of the mode-normalisation step. -/
def blankStr (s : String) : Bool := s.data.all (fun c => c = ' ' || c = '\t' || c = '\n' || c = '\r')

/-- Mode normalisation at the top of `Sync`: blank mode defaults to
`replace`. -/
def normMode (mode : String) : String := if blankStr mode then "replace" else mode

/-- The first loop of `diff`: entries of `target` absent from `prev`. -/
def diffAdds (prev : UserMap) : UserMap → List User
  | [] => []
  | (uid, nu) :: rest =>
    match lookupUser prev uid with
    | none => nu :: diffAdds prev rest
    | some _ => diffAdds prev rest

/-- The first loop of `diff`: entries of `target` present in `prev` but
`changed`, paired as (old, new). -/
def diffUpds (prev : UserMap) : UserMap → List (User × User)
  | [] => []
  | (uid, nu) :: rest =>
    match lookupUser prev uid with
    | none => diffUpds prev rest
    | some ou =>
      if changed ou nu then (ou, nu) :: diffUpds prev rest else diffUpds prev rest

/-- The second loop of `diff`: entries of `prev` absent from `target`. -/
def delScan (target : UserMap) : UserMap → List User
  | [] => []
  | (uid, ou) :: rest =>
    match lookupUser target uid with
    | none => ou :: delScan target rest
    | some _ => delScan target rest

/-- The delete set of `diff`: computed only when the mode folds to
`replace`. -/
def diffDels (prev target : UserMap) (mode : String) : List User :=
  if eqFold mode "replace" then delScan target prev else []

/-- `diff` from `internal/syncer/syncer.go`. -/
def diff (prev target : UserMap) (mode : String) :
    List User × List (User × User) × List User :=
  (diffAdds prev target, diffUpds prev target, diffDels prev target mode)

/-- IDs of the Add set. -/
def addIds (prev target : UserMap) : List String := (diffAdds prev target).map User.UID

/-- IDs of the Update set (by the new record). -/
def updIds (prev target : UserMap) : List String :=
  (diffUpds prev target).map (fun p => p.2.UID)

/-- IDs of the Delete set. -/
def delIds (prev target : UserMap) (mode : String) : List String :=
  (diffDels prev target mode).map User.UID

/-- The tagged job variant fed to the worker pool (`typ` field "add" /
"upd" / "del" of the anonymous `job` struct in `Sync`). -/
inductive Job where
  | add (u : User)
  | upd (old new : User)
  | del (u : User)
deriving DecidableEq, Repr

/-- Whether a job is a Delete job. -/
def isDelJob : Job → Bool
  | .del _ => true
  | _ => false

/-- The job feed order of `Sync`: adds, then updates, then (only when the
mode folds to `replace`) deletes. -/
def jobsOf (prev target : UserMap) (mode : String) : List Job :=
  (diffAdds prev target).map Job.add
    ++ (diffUpds prev target).map (fun p => Job.upd p.1 p.2)
    ++ (if eqFold mode "replace" then (diffDels prev target mode).map Job.del else [])

/-- `Summary` from `internal/syncer/syncer.go`: exactly the four counters
of the code. -/
structure Summary where
  Added : Nat
  Updated : Nat
  Removed : Nat
  Failed : Nat
deriving DecidableEq, Repr

/-- The zero summary (`Summary{}` in Go). -/
def Summary.zero : Summary := ⟨0, 0, 0, 0⟩

/-- Total number of jobs accounted for by a summary. -/
def Summary.total (s : Summary) : Nat := s.Added + s.Updated + s.Removed + s.Failed

/-- One logical call of the xray client (each call fans out internally over
every configured inbound tag). -/
inductive Call where
  | addVLESS (email uuid : String) (level : Nat) (flow : String)
  | addVMess (email uuid : String) (level : Nat)
  | remove (email : String)
deriving DecidableEq, Repr

/-- Control-plane oracle: per tag and per operation, `none` for success or
`some msg` for an RPC error with message `msg`. -/
abbrev CPFun := String → Call → Option String

/-- Whether the first list occurs at the head of the second. -/
def leadsWith : List Char → List Char → Bool
  | [], _ => true
  | _ :: _, [] => false
  | a :: as, b :: bs => (a = b) && leadsWith as bs

/-- Whether `needle` occurs somewhere inside the second list
(`strings.Contains`). -/
def hasSub (needle : List Char) : List Char → Bool
  | [] => leadsWith needle []
  | c :: rest => leadsWith needle (c :: rest) || hasSub needle rest

/-- `alreadyExists` of the xray client: case-insensitive substring match of
"already" or "exists" on the error message. -/
def alreadyExists (msg : String) : Bool :=
  let m := lowerChars msg.data
  hasSub "already".data m || hasSub "exists".data m

/-- `Client.addUserAll`: fan the AddUser operation out over every tag; a
per-tag error matching `alreadyExists` is tolerated and that tag skipped;
any other per-tag error aborts with the wrapped error. -/
def addUserAll (cp : CPFun) (tags : List String) (r : Call) : Option String :=
  match tags with
  | [] => none
  | t :: rest =>
    match cp t r with
    | some e =>
      if alreadyExists e then addUserAll cp rest r
      else some ("tag=" ++ t ++ ": " ++ e)
    | none => addUserAll cp rest r

/-- `Client.Remove`: fan the RemoveUser operation out over every tag; any
per-tag error aborts with the wrapped error (no not-found tolerance). -/
def removeAll (cp : CPFun) (tags : List String) (email : String) : Option String :=
  match tags with
  | [] => none
  | t :: rest =>
    match cp t (Call.remove email) with
    | some e => some ("tag=" ++ t ++ ": " ++ e)
    | none => removeAll cp rest email

/-- `addUser` of the syncer: dispatch on the protocol tag; anything other
than vless or vmess issues no client call and fails with the unsupported
proto error.  Returns the client calls issued and the outcome. -/
def addUser (cp : CPFun) (tags : List String) (u : User) : List Call × Option String :=
  if u.Proto = "vless" then
    ([Call.addVLESS u.Email u.UUID u.Level u.Flow],
      addUserAll cp tags (Call.addVLESS u.Email u.UUID u.Level u.Flow))
  else if u.Proto = "vmess" then
    ([Call.addVMess u.Email u.UUID u.Level],
      addUserAll cp tags (Call.addVMess u.Email u.UUID u.Level))
  else
    ([], some ("unsupported proto: " ++ u.Proto))

/-- `withRetry` of the syncer: up to `n` attempts, stopping at the first
success, returning the last error otherwise; the calls issued by every
attempt are accumulated.  (`withRetry 0` never runs the body and returns
the zero error, exactly as the Go loop does.) -/
def withRetry : Nat → (Unit → List Call × Option String) → List Call × Option String
  | 0, _ => ([], none)
  | 1, f => f ()
  | Nat.succ (Nat.succ n), f =>
    match f () with
    | (tr, none) => (tr, none)
    | (tr, some _) =>
      let r := withRetry (Nat.succ n) f
      (tr ++ r.1, r.2)

/-- One job of the worker body: Add is one AddUser leg, Update is
RemoveUser of the old record then AddUser of the new one, Delete is one
RemoveUser leg; every leg sequence is wrapped in `withRetry 3`. -/
def runJob (cp : CPFun) (tags : List String) : Job → List Call × Option String
  | .add u => withRetry 3 (fun _ => addUser cp tags u)
  | .upd o n =>
    withRetry 3 (fun _ =>
      match removeAll cp tags o.Email with
      | some e => ([Call.remove o.Email], some e)
      | none =>
        let r := addUser cp tags n
        (Call.remove o.Email :: r.1, r.2))
  | .del u => withRetry 3 (fun _ => ([Call.remove u.Email], removeAll cp tags u.Email))

/-- Go map assignment `state[uid] = u` on the working copy. -/
def upsertMap (m : UserMap) (uid : String) (u : User) : UserMap :=
  match m with
  | [] => [(uid, u)]
  | (k, v) :: rest => if k = uid then (uid, u) :: rest else (k, v) :: upsertMap rest uid u

/-- Go map deletion `delete(state, uid)` on the working copy. -/
def eraseMap (m : UserMap) (uid : String) : UserMap :=
  match m with
  | [] => []
  | (k, v) :: rest => if k = uid then eraseMap rest uid else (k, v) :: eraseMap rest uid

/-- A write against the durable store.  The working-copy revision of `Sync`
only ever emits `replaceAll`; the `upsert`/`deleteUid` variants exist so
that their absence from the emitted trace is a meaningful statement. -/
inductive StoreOp where
  | replaceAll (m : UserMap)
  | upsert (u : User)
  | deleteUid (uid : String)
deriving DecidableEq, Repr

/-- A snapshot-archiver write: the fixed current.json wrapped with a
revision marker, and the timestamped raw-payload file. -/
inductive SnapOp where
  | writeCurrentWithRevision
  | writeTimestamped
deriving DecidableEq, Repr

/-- Accumulator of the worker fold: working Applied Set copy, counters,
and the client calls issued so far. -/
abbrev RunSt := UserMap × Summary × List Call

/-- The worker body for one job: on success mutate the working copy and
bump the matching counter; on a surviving error bump only `Failed`. -/
def execJob (cp : CPFun) (tags : List String) (acc : RunSt) (j : Job) : RunSt :=
  match runJob cp tags j with
  | (tr, none) =>
    match j with
    | .add u => (upsertMap acc.1 u.UID u, { acc.2.1 with Added := acc.2.1.Added + 1 }, acc.2.2 ++ tr)
    | .upd _ n => (upsertMap acc.1 n.UID n, { acc.2.1 with Updated := acc.2.1.Updated + 1 }, acc.2.2 ++ tr)
    | .del u => (eraseMap acc.1 u.UID, { acc.2.1 with Removed := acc.2.1.Removed + 1 }, acc.2.2 ++ tr)
  | (tr, some _) => (acc.1, { acc.2.1 with Failed := acc.2.1.Failed + 1 }, acc.2.2 ++ tr)

/-- Observable outcome of one `Sync` invocation. -/
structure SyncResult where
  summary : Summary
  fatalErr : Bool
  storeOps : List StoreOp
  snapOps : List SnapOp
  calls : List Call
deriving DecidableEq, Repr

/-- `Sync` of the working-copy revision of the syncer: normalise the mode,
compute the diff, abort with an error if the control-plane connection
cannot be established (before any job runs and before any write), run the
jobs over a working copy of the previous Applied Set, persist the final
working copy with a single replace-all store write, then write the two
snapshot files, and return the summary with a nil error. -/
def syncRun (connectOk : Bool) (cp : CPFun) (tags : List String)
    (prev target : UserMap) (mode : String) : SyncResult :=
  let m := normMode mode
  let js := jobsOf prev target m
  if connectOk then
    let r := js.foldl (execJob cp tags) (prev, Summary.zero, [])
    { summary := r.2.1
      fatalErr := false
      storeOps := [StoreOp.replaceAll r.1]
      snapOps := [SnapOp.writeCurrentWithRevision, SnapOp.writeTimestamped]
      calls := r.2.2 }
  else
    { summary := Summary.zero, fatalErr := true, storeOps := [], snapOps := [], calls := [] }

/-- Keys of `target` classified as Update against `prev`. -/
def updKeys (prev : UserMap) : UserMap → List String
  | [] => []
  | (uid, nu) :: rest =>
    match lookupUser prev uid with
    | some ou => if changed ou nu then uid :: updKeys prev rest else updKeys prev rest
    | none => updKeys prev rest

/-- Modelled from the spec: the reseed-aware job classification of the
`Sync` variant taking the reseed flag (called from `cmd/xraysync/main.go`;
that variant of `Sync` itself is not among the sources).  Per the spec,
`reseed = true` ignores the no-op classification and schedules an Add for
every Desired ID not already classified as Update, and schedules no
deletions even when the active mode is replace; `reseed = false` leaves
the ordinary diff unchanged. -/
def reseedDiff (prev target : UserMap) (mode : String) (reseed : Bool) :
    List User × List (User × User) × List User :=
  if reseed then
    ((target.filter (fun p => decide (p.1 ∉ updKeys prev target))).map Prod.snd,
      diffUpds prev target, [])
  else
    diff prev target mode

/-! ### Concrete instances used by witnesses and counterexamples -/

/-- A concrete unchanged vless user. -/
def cA : User := ⟨"a", "a", "uuid-a", "vless", 1, ""⟩

/-- A concrete previous record for id b. -/
def cBold : User := ⟨"b", "b", "uuid-b1", "vless", 1, ""⟩

/-- A concrete desired record for id b, differing from `cBold` in UUID. -/
def cBnew : User := ⟨"b", "b", "uuid-b2", "vless", 1, ""⟩

/-- A concrete record present only in the previous Applied Set. -/
def cC : User := ⟨"c", "c", "uuid-c", "vless", 1, ""⟩

/-- A concrete record present only in the Desired Set. -/
def cD : User := ⟨"d", "d", "uuid-d", "vless", 1, ""⟩

/-- A concrete previous Applied Set. -/
def prevC1 : UserMap := [("a", cA), ("b", cBold), ("c", cC)]

/-- A concrete Desired Set: a unchanged, b changed, d new, c missing. -/
def targC1 : UserMap := [("a", cA), ("b", cBnew), ("d", cD)]

/-- A vmess record with empty Flow. -/
def vmFlowA : User := ⟨"m", "m", "uuid-m", "vmess", 1, ""⟩

/-- The same vmess record except for the Flow field. -/
def vmFlowB : User := ⟨"m", "m", "uuid-m", "vmess", 1, "xtls-rprx-vision"⟩

/-- A control plane on which every RPC succeeds. -/
def cpNone : CPFun := fun _ _ => none

/-- A control plane on which every RemoveUser answers a not-found error and
every AddUser succeeds. -/
def cpNotFound : CPFun := fun _ c =>
  match c with
  | Call.remove _ => some "user not found"
  | _ => none

/-- A control plane on which every AddUser answers an already-exists error
and every RemoveUser answers a not-found error. -/
def cpAlready : CPFun := fun _ c =>
  match c with
  | Call.remove _ => some "user not found"
  | _ => some "User already exists."

/-- A concrete record to be deleted (present in Applied, not in Desired). -/
def uDel : User := ⟨"b@x", "b@x", "uuid-bx", "vless", 1, ""⟩

/-- A concrete record to be added (present in Desired, not in Applied). -/
def uAdd : User := ⟨"a@x", "a@x", "uuid-ax", "vless", 1, ""⟩

/-- A concrete record with an unsupported protocol tag. -/
def uTroj : User := ⟨"x@x", "x@x", "uuid-xx", "trojan", 1, ""⟩

/-! ### Helper lemmas about lookup and the diff sets -/

theorem lookup_ne_none_of_mem {m : UserMap} {k : String} {v : User} (h : (k, v) ∈ m) :
    lookupUser m k ≠ none := by
  induction m with
  | nil => simp at h
  | cons q rest ih =>
    obtain ⟨k0, v0⟩ := q
    by_cases hk : k0 = k
    · simp [lookupUser, hk]
    · rcases List.mem_cons.1 h with heq | hm
      · exact absurd ((Prod.mk.injEq _ _ _ _ ▸ heq).1.symm) hk
      · simp only [lookupUser, if_neg hk]
        exact ih hm

theorem lookup_of_mem_nodup {m : UserMap} (hn : NodupKeys m) :
    ∀ {k : String} {v : User}, (k, v) ∈ m → lookupUser m k = some v := by
  induction m with
  | nil => simp
  | cons q rest ih =>
    obtain ⟨k0, v0⟩ := q
    simp only [NodupKeys, List.map_cons, List.nodup_cons] at hn
    intro k v h
    rcases List.mem_cons.1 h with heq | hm
    · obtain ⟨rfl, rfl⟩ := Prod.mk.injEq _ _ _ _ ▸ heq
      simp [lookupUser]
    · have hk : k0 ≠ k := by
        rintro rfl
        exact hn.1 (List.mem_map.2 ⟨(k0, v), hm, rfl⟩)
      simp only [lookupUser, if_neg hk]
      exact ih hn.2 hm

theorem key_inj {m : UserMap} (hn : NodupKeys m) :
    ∀ {k : String} {a b : User}, (k, a) ∈ m → (k, b) ∈ m → a = b := by
  intro k a b ha hb
  have h1 := lookup_of_mem_nodup hn ha
  have h2 := lookup_of_mem_nodup hn hb
  rw [h1] at h2
  exact Option.some.inj h2

theorem mem_diffAdds {prev : UserMap} {u : User} {t : UserMap} :
    u ∈ diffAdds prev t ↔ ∃ uid, (uid, u) ∈ t ∧ lookupUser prev uid = none := by
  induction t with
  | nil => simp [diffAdds]
  | cons q rest ih =>
    obtain ⟨uid0, nu⟩ := q
    cases h : lookupUser prev uid0 with
    | none =>
      simp only [diffAdds, h, List.mem_cons]
      constructor
      · rintro (rfl | hm)
        · exact ⟨uid0, Or.inl rfl, h⟩
        · obtain ⟨uid, hmem, hnone⟩ := ih.1 hm
          exact ⟨uid, Or.inr hmem, hnone⟩
      · rintro ⟨uid, (heq | hmem), hnone⟩
        · obtain ⟨rfl, rfl⟩ := Prod.mk.injEq _ _ _ _ ▸ heq
          exact Or.inl rfl
        · exact Or.inr (ih.2 ⟨uid, hmem, hnone⟩)
    | some ou =>
      simp only [diffAdds, h]
      constructor
      · intro hm
        obtain ⟨uid, hmem, hnone⟩ := ih.1 hm
        exact ⟨uid, List.mem_cons_of_mem _ hmem, hnone⟩
      · rintro ⟨uid, hmem, hnone⟩
        rcases List.mem_cons.1 hmem with heq | hmem2
        · obtain ⟨rfl, rfl⟩ := Prod.mk.injEq _ _ _ _ ▸ heq
          rw [h] at hnone
          exact absurd hnone (by simp)
        · exact ih.2 ⟨uid, hmem2, hnone⟩

theorem mem_diffUpds {prev : UserMap} {po pn : User} {t : UserMap} :
    (po, pn) ∈ diffUpds prev t ↔
      ∃ uid, (uid, pn) ∈ t ∧ lookupUser prev uid = some po ∧ changed po pn = true := by
  induction t with
  | nil => simp [diffUpds]
  | cons q rest ih =>
    obtain ⟨uid0, nu⟩ := q
    cases h : lookupUser prev uid0 with
    | none =>
      simp only [diffUpds, h]
      constructor
      · intro hm
        obtain ⟨uid, hmem, hsome, hch⟩ := ih.1 hm
        exact ⟨uid, List.mem_cons_of_mem _ hmem, hsome, hch⟩
      · rintro ⟨uid, hmem, hsome, hch⟩
        rcases List.mem_cons.1 hmem with heq | hmem2
        · obtain ⟨rfl, h2⟩ := Prod.mk.injEq _ _ _ _ ▸ heq
          rw [h] at hsome
          exact absurd hsome (by simp)
        · exact ih.2 ⟨uid, hmem2, hsome, hch⟩
    | some ou =>
      by_cases hch0 : changed ou nu = true
      · simp only [diffUpds, h, if_pos hch0, List.mem_cons]
        constructor
        · rintro (heq | hm)
          · obtain ⟨rfl, rfl⟩ := Prod.mk.injEq _ _ _ _ ▸ heq
            exact ⟨uid0, Or.inl rfl, h, hch0⟩
          · obtain ⟨uid, hmem, hsome, hch⟩ := ih.1 hm
            exact ⟨uid, Or.inr hmem, hsome, hch⟩
        · rintro ⟨uid, (heq | hmem), hsome, hch⟩
          · obtain ⟨rfl, h2⟩ := Prod.mk.injEq _ _ _ _ ▸ heq
            rw [h] at hsome
            obtain rfl := Option.some.inj hsome
            exact Or.inl (by rw [h2])
          · exact Or.inr (ih.2 ⟨uid, hmem, hsome, hch⟩)
      · simp only [diffUpds, h, if_neg hch0]
        constructor
        · intro hm
          obtain ⟨uid, hmem, hsome, hch⟩ := ih.1 hm
          exact ⟨uid, List.mem_cons_of_mem _ hmem, hsome, hch⟩
        · rintro ⟨uid, hmem, hsome, hch⟩
          rcases List.mem_cons.1 hmem with heq | hmem2
          · obtain ⟨rfl, h2⟩ := Prod.mk.injEq _ _ _ _ ▸ heq
            rw [h] at hsome
            obtain rfl := Option.some.inj hsome
            rw [h2] at hch
            exact absurd hch hch0
          · exact ih.2 ⟨uid, hmem2, hsome, hch⟩

theorem mem_delScan {t : UserMap} {u : User} {prev : UserMap} :
    u ∈ delScan t prev ↔ ∃ uid, (uid, u) ∈ prev ∧ lookupUser t uid = none := by
  induction prev with
  | nil => simp [delScan]
  | cons q rest ih =>
    obtain ⟨uid0, ou⟩ := q
    cases h : lookupUser t uid0 with
    | none =>
      simp only [delScan, h, List.mem_cons]
      constructor
      · rintro (rfl | hm)
        · exact ⟨uid0, Or.inl rfl, h⟩
        · obtain ⟨uid, hmem, hnone⟩ := ih.1 hm
          exact ⟨uid, Or.inr hmem, hnone⟩
      · rintro ⟨uid, (heq | hmem), hnone⟩
        · obtain ⟨rfl, rfl⟩ := Prod.mk.injEq _ _ _ _ ▸ heq
          exact Or.inl rfl
        · exact Or.inr (ih.2 ⟨uid, hmem, hnone⟩)
    | some w =>
      simp only [delScan, h]
      constructor
      · intro hm
        obtain ⟨uid, hmem, hnone⟩ := ih.1 hm
        exact ⟨uid, List.mem_cons_of_mem _ hmem, hnone⟩
      · rintro ⟨uid, hmem, hnone⟩
        rcases List.mem_cons.1 hmem with heq | hmem2
        · obtain ⟨rfl, rfl⟩ := Prod.mk.injEq _ _ _ _ ▸ heq
          rw [h] at hnone
          exact absurd hnone (by simp)
        · exact ih.2 ⟨uid, hmem2, hnone⟩

theorem mem_addIds {prev target : UserMap} {i : String} (hwt : WFMap target) :
    i ∈ addIds prev target ↔ ∃ u, (i, u) ∈ target ∧ lookupUser prev i = none := by
  constructor
  · intro h
    obtain ⟨u, hu, rfl⟩ := List.mem_map.1 h
    obtain ⟨uid, hmem, hnone⟩ := mem_diffAdds.1 hu
    have : u.UID = uid := hwt (uid, u) hmem
    rw [this]
    exact ⟨u, hmem, hnone⟩
  · rintro ⟨u, hmem, hnone⟩
    have hu : u ∈ diffAdds prev target := mem_diffAdds.2 ⟨i, hmem, hnone⟩
    have : u.UID = i := hwt (i, u) hmem
    exact List.mem_map.2 ⟨u, hu, this⟩

theorem mem_updIds {prev target : UserMap} {i : String} (hwt : WFMap target) :
    i ∈ updIds prev target ↔
      ∃ ou nu, (i, nu) ∈ target ∧ lookupUser prev i = some ou ∧ changed ou nu = true := by
  constructor
  · intro h
    obtain ⟨p, hp, hid⟩ := List.mem_map.1 h
    obtain ⟨po, pn⟩ := p
    obtain ⟨uid, hmem, hsome, hch⟩ := mem_diffUpds.1 hp
    have hu : pn.UID = uid := hwt (uid, pn) hmem
    simp only at hid
    rw [← hid, hu]
    exact ⟨po, pn, hmem, hsome, hch⟩
  · rintro ⟨ou, nu, hmem, hsome, hch⟩
    have hp : (ou, nu) ∈ diffUpds prev target := mem_diffUpds.2 ⟨i, hmem, hsome, hch⟩
    have : nu.UID = i := hwt (i, nu) hmem
    exact List.mem_map.2 ⟨(ou, nu), hp, this⟩

theorem mem_delIds {prev target : UserMap} {i : String} {mode : String} (hwp : WFMap prev) :
    i ∈ delIds prev target mode ↔
      eqFold mode "replace" = true ∧ ∃ ou, (i, ou) ∈ prev ∧ lookupUser target i = none := by
  unfold delIds diffDels
  by_cases hm : eqFold mode "replace" = true
  · rw [if_pos hm]
    constructor
    · intro h
      obtain ⟨u, hu, rfl⟩ := List.mem_map.1 h
      obtain ⟨uid, hmem, hnone⟩ := mem_delScan.1 hu
      have : u.UID = uid := hwp (uid, u) hmem
      rw [this]
      exact ⟨hm, u, hmem, hnone⟩
    · rintro ⟨_, ou, hmem, hnone⟩
      have hu : ou ∈ delScan target prev := mem_delScan.2 ⟨i, hmem, hnone⟩
      have : ou.UID = i := hwp (i, ou) hmem
      exact List.mem_map.2 ⟨ou, hu, this⟩
  · rw [if_neg hm]
    simp [hm]

theorem changed_self (a : User) : changed a a = false := by
  simp [changed]

theorem diffAdds_upds_nil_of_found (prev : UserMap) :
    ∀ t : UserMap, (∀ p ∈ t, lookupUser prev p.1 = some p.2) →
      diffAdds prev t = [] ∧ diffUpds prev t = [] := by
  intro t
  induction t with
  | nil => intro _; exact ⟨rfl, rfl⟩
  | cons q rest ih =>
    obtain ⟨uid, nu⟩ := q
    intro h
    have h0 : lookupUser prev uid = some nu := h (uid, nu) (List.mem_cons_self _ _)
    have hr := ih (fun p hp => h p (List.mem_cons_of_mem _ hp))
    exact ⟨by simp [diffAdds, h0, hr.1], by simp [diffUpds, h0, changed_self, hr.2]⟩

theorem delScan_nil_of_found (t : UserMap) :
    ∀ l : UserMap, (∀ p ∈ l, lookupUser t p.1 ≠ none) → delScan t l = [] := by
  intro l
  induction l with
  | nil => intro _; rfl
  | cons q rest ih =>
    obtain ⟨uid, ou⟩ := q
    intro h
    have h0 := h (uid, ou) (List.mem_cons_self _ _)
    cases hx : lookupUser t uid with
    | none => exact absurd hx h0
    | some w => simp [delScan, hx, ih (fun p hp => h p (List.mem_cons_of_mem _ hp))]

theorem filter_del_map_add (l : List User) : (l.map Job.add).filter isDelJob = [] := by
  induction l with
  | nil => rfl
  | cons u rest ih => simp [List.filter_cons, isDelJob, ih]

theorem filter_del_map_upd (l : List (User × User)) :
    (l.map (fun p => Job.upd p.1 p.2)).filter isDelJob = [] := by
  induction l with
  | nil => rfl
  | cons u rest ih => simp [List.filter_cons, isDelJob, ih]

theorem total_execJob (cp : CPFun) (tags : List String) (acc : RunSt) (j : Job) :
    Summary.total (execJob cp tags acc j).2.1 = Summary.total acc.2.1 + 1 := by
  rcases hr : runJob cp tags j with ⟨tr, e⟩
  cases e with
  | none =>
    cases j with
    | add u => simp only [execJob, hr]; simp [Summary.total]; omega
    | upd o n => simp only [execJob, hr]; simp [Summary.total]; omega
    | del u => simp only [execJob, hr]; simp [Summary.total]; omega
  | some msg => simp only [execJob, hr]; simp [Summary.total]; omega

theorem total_foldl (cp : CPFun) (tags : List String) :
    ∀ (js : List Job) (acc : RunSt),
      Summary.total ((js.foldl (execJob cp tags) acc).2.1)
        = Summary.total acc.2.1 + js.length := by
  intro js
  induction js with
  | nil => intro acc; simp
  | cons j rest ih =>
    intro acc
    simp only [List.foldl_cons, List.length_cons]
    rw [ih, total_execJob]
    omega

/-! ### The claims -/

/-- Claim C1: for every previous Applied Set, Desired Set and mode, the
three diff result sets are pairwise disjoint by ID, and every Desired ID is
classified in exactly one of no-op, Add, Update: it lands in the Add set
when absent from Applied, in the Update set when present but changed, and
in neither when present and unchanged. -/
theorem diff_three_way_partition (prev target : UserMap) (mode : String)
    (hnt : NodupKeys target) (hwt : WFMap target) (hwp : WFMap prev) :
    (∀ i ∈ addIds prev target, i ∉ updIds prev target)
    ∧ (∀ i ∈ addIds prev target, i ∉ delIds prev target mode)
    ∧ (∀ i ∈ updIds prev target, i ∉ delIds prev target mode)
    ∧ (∀ p ∈ target,
        (lookupUser prev p.1 = none →
          p.1 ∈ addIds prev target ∧ p.1 ∉ updIds prev target)
        ∧ (∀ ou, lookupUser prev p.1 = some ou → changed ou p.2 = true →
            p.1 ∈ updIds prev target ∧ p.1 ∉ addIds prev target)
        ∧ (∀ ou, lookupUser prev p.1 = some ou → changed ou p.2 = false →
            p.1 ∉ addIds prev target ∧ p.1 ∉ updIds prev target)) := by
  refine ⟨?_, ?_, ?_, ?_⟩
  · intro i hia hiu
    obtain ⟨u, hmem, hnone⟩ := (mem_addIds hwt).1 hia
    obtain ⟨ou, nu, hmem2, hsome, _⟩ := (mem_updIds hwt).1 hiu
    rw [hnone] at hsome
    exact absurd hsome (by simp)
  · intro i hia hid
    obtain ⟨u, hmem, _⟩ := (mem_addIds hwt).1 hia
    obtain ⟨_, ou, _, hnone⟩ := (mem_delIds hwp).1 hid
    exact lookup_ne_none_of_mem hmem hnone
  · intro i hiu hid
    obtain ⟨ou, nu, hmem, _, _⟩ := (mem_updIds hwt).1 hiu
    obtain ⟨_, ou2, _, hnone⟩ := (mem_delIds hwp).1 hid
    exact lookup_ne_none_of_mem hmem hnone
  · intro p hp
    obtain ⟨i, u⟩ := p
    refine ⟨?_, ?_, ?_⟩
    · intro hnone
      refine ⟨(mem_addIds hwt).2 ⟨u, hp, hnone⟩, ?_⟩
      intro hiu
      obtain ⟨ou, nu, _, hsome, _⟩ := (mem_updIds hwt).1 hiu
      rw [hnone] at hsome
      exact absurd hsome (by simp)
    · intro ou hsome hch
      refine ⟨(mem_updIds hwt).2 ⟨ou, u, hp, hsome, hch⟩, ?_⟩
      intro hia
      obtain ⟨u2, _, hnone⟩ := (mem_addIds hwt).1 hia
      rw [hnone] at hsome
      exact absurd hsome (by simp)
    · intro ou hsome hch
      constructor
      · intro hia
        obtain ⟨u2, _, hnone⟩ := (mem_addIds hwt).1 hia
        rw [hnone] at hsome
        exact absurd hsome (by simp)
      · intro hiu
        obtain ⟨ou2, nu2, hmem2, hsome2, hch2⟩ := (mem_updIds hwt).1 hiu
        rw [hsome] at hsome2
        obtain rfl := Option.some.inj hsome2
        obtain rfl : nu2 = u := key_inj hnt hmem2 hp
        rw [hch] at hch2
        exact absurd hch2 (by simp)

/-- Witness for C1 at a concrete instance with one no-op, one Add, one
Update and one Delete. -/
theorem diff_three_way_partition_witness :
    NodupKeys targC1 ∧ WFMap targC1 ∧ WFMap prevC1
      ∧ (∀ i ∈ addIds prevC1 targC1, i ∉ updIds prevC1 targC1) :=
  ⟨by decide, by decide, by decide,
    (diff_three_way_partition prevC1 targC1 "replace"
      (by decide) (by decide) (by decide)).1⟩

/-- Claim C2 counterexample: two vmess records that agree on UUID, Proto
and Level but differ only in Flow are classified as changed and an Update
pair is produced, contrary to the claim that Flow is diffed only for
vless records. -/
theorem vmess_flow_only_diff_produces_update :
    vmFlowA.Proto = "vmess" ∧ vmFlowB.Proto = "vmess"
    ∧ vmFlowA.UUID = vmFlowB.UUID ∧ vmFlowA.Level = vmFlowB.Level
    ∧ vmFlowA.Flow ≠ vmFlowB.Flow
    ∧ changed vmFlowA vmFlowB = true
    ∧ diffUpds [("m", vmFlowA)] [("m", vmFlowB)] = [(vmFlowA, vmFlowB)] := by
  decide

/-- Claim C2 amended: two user records with the same ID are classified as
unchanged if and only if their UUID, Proto, Level and Flow are all equal;
the Flow comparison applies to every protocol, vmess included. -/
theorem changed_iff_fieldwise (a b : User) (i : String) :
    (changed a b = false ↔
      a.UUID = b.UUID ∧ a.Proto = b.Proto ∧ a.Level = b.Level ∧ a.Flow = b.Flow)
    ∧ diffUpds [(i, a)] [(i, b)] = (if changed a b then [(a, b)] else []) := by
  constructor
  · simp [changed, and_assoc]
  · simp [diffUpds, lookupUser]

/-- Claim C3 (spec-modelled): with the reseed flag set, the scheduled jobs
contain no deletions in any mode, and every Desired record whose ID is not
classified as an Update is scheduled as an Add, including unchanged ones. -/
theorem reseed_no_deletes_add_all (prev target : UserMap) (mode : String) :
    (reseedDiff prev target mode true).2.2 = []
    ∧ (∀ p ∈ target, p.1 ∉ updKeys prev target →
        p.2 ∈ (reseedDiff prev target mode true).1)
    ∧ (reseedDiff prev target mode true).2.1 = diffUpds prev target := by
  refine ⟨rfl, ?_, rfl⟩
  intro p hp hnot
  exact List.mem_map.2 ⟨p, List.mem_filter.2 ⟨hp, decide_eq_true hnot⟩, rfl⟩

/-- Witness for C3: in replace mode with reseed, an unchanged record is
still scheduled as an Add and no deletion is scheduled although one ID is
present in Applied only. -/
theorem reseed_no_deletes_add_all_witness :
    (reseedDiff prevC1 targC1 "replace" true).2.2 = []
    ∧ cA ∈ (reseedDiff prevC1 targC1 "replace" true).1 :=
  ⟨(reseed_no_deletes_add_all prevC1 targC1 "replace").1,
    (reseed_no_deletes_add_all prevC1 targC1 "replace").2.1 ("a", cA)
      (by decide) (by decide)⟩

/-- Claim C4: a run that establishes the connection performs exactly one
store write, a replace-all with the final working copy, where the working
copy is the fold of the jobs starting from the previously persisted
Applied Set; no per-job store write occurs. -/
theorem store_written_once_replace_all (cp : CPFun) (tags : List String)
    (prev target : UserMap) (mode : String) :
    (syncRun true cp tags prev target mode).storeOps
      = [StoreOp.replaceAll
          ((jobsOf prev target (normMode mode)).foldl (execJob cp tags)
            (prev, Summary.zero, [])).1] := by
  simp [syncRun]

/-- Claim C5 counterexample: a run aborted because the control-plane
connection could not be established writes no snapshot file at all,
contrary to the claim that the snapshot is written unconditionally. -/
theorem no_snapshot_on_connect_failure :
    (syncRun false cpNone ["in-0"] [] [] "replace").fatalErr = true
    ∧ (syncRun false cpNone ["in-0"] [] [] "replace").snapOps = [] :=
  ⟨rfl, rfl⟩

/-- Claim C5 amended: every run that establishes the control-plane
connection writes the timestamped snapshot file and the revision-wrapped
current file, regardless of job failures; a run aborted at connection time
writes neither. -/
theorem snapshot_when_connected (cp : CPFun) (tags : List String)
    (prev target : UserMap) (mode : String) :
    (syncRun true cp tags prev target mode).snapOps
      = [SnapOp.writeCurrentWithRevision, SnapOp.writeTimestamped] := by
  simp [syncRun]

/-- Claim C6 counterexample: a Remove whose per-tag error indicates the
record was not found surfaces as an error and the job is counted in
Summary.Failed, contrary to the claim that it is classified as
idempotent-benign with Failed unchanged. -/
theorem remove_not_found_is_failure :
    removeAll cpNotFound ["in-0"] "b@x" = some "tag=in-0: user not found"
    ∧ alreadyExists "user not found" = false
    ∧ (syncRun true cpNotFound ["in-0"] [("b@x", uDel)] [] "replace").summary
        = { Added := 0, Updated := 0, Removed := 0, Failed := 1 } := by
  decide

/-- Claim C6 amended: there is no disposition policy and no skip counter;
an Add whose per-tag error indicates the record already exists is tolerated
inside the client (the tag is skipped), so the Add succeeds, increments
Summary.Added and updates the Applied Set to the desired record, while a
failed Remove whose error indicates not-found increments Summary.Failed. -/
theorem add_existing_tolerated_remove_missing_failed :
    alreadyExists "User already exists." = true
    ∧ addUserAll cpAlready ["in-0"] (Call.addVLESS "a@x" "uuid-ax" 1 "") = none
    ∧ (syncRun true cpAlready ["in-0"] [] [("a@x", uAdd)] "replace").summary
        = { Added := 1, Updated := 0, Removed := 0, Failed := 0 }
    ∧ (syncRun true cpAlready ["in-0"] [] [("a@x", uAdd)] "replace").storeOps
        = [StoreOp.replaceAll [("a@x", uAdd)]]
    ∧ (syncRun true cpAlready ["in-0"] [("b@x", uDel)] [] "replace").summary
        = { Added := 0, Updated := 0, Removed := 0, Failed := 1 } := by
  decide

/-- Claim C7: a connection failure returns an error with the zero summary,
no store write, and no client call issued; when the connection succeeds the
run returns a nil error, every job is accounted for in the summary (job
failures do not abort the remaining jobs), and a job whose RPC outcome is
an error only increments Failed and leaves the working copy unchanged. -/
theorem fatal_vs_perjob_failures (cp : CPFun) (tags : List String)
    (prev target : UserMap) (mode : String) :
    ((syncRun false cp tags prev target mode).fatalErr = true
      ∧ (syncRun false cp tags prev target mode).storeOps = []
      ∧ (syncRun false cp tags prev target mode).calls = []
      ∧ (syncRun false cp tags prev target mode).summary = Summary.zero)
    ∧ ((syncRun true cp tags prev target mode).fatalErr = false
      ∧ Summary.total (syncRun true cp tags prev target mode).summary
          = (jobsOf prev target (normMode mode)).length
      ∧ ∀ (acc : RunSt) (j : Job),
          (runJob cp tags j).2 = none ∨
            execJob cp tags acc j
              = (acc.1, { acc.2.1 with Failed := acc.2.1.Failed + 1 },
                  acc.2.2 ++ (runJob cp tags j).1)) := by
  refine ⟨⟨rfl, rfl, rfl, rfl⟩, rfl, ?_, ?_⟩
  · show Summary.total ((jobsOf prev target (normMode mode)).foldl
      (execJob cp tags) (prev, Summary.zero, [])).2.1 = _
    rw [total_foldl]
    simp [Summary.total, Summary.zero]
  · intro acc j
    rcases hr : runJob cp tags j with ⟨tr, e⟩
    cases e with
    | none => exact Or.inl rfl
    | some msg => exact Or.inr (by simp only [execJob, hr])

/-- Claim C8: in upsert mode the delete set of the diff is empty and no
Delete job is enqueued, whatever the Applied and Desired sets are. -/
theorem upsert_mode_no_delete (prev target : UserMap) :
    (diff prev target "upsert").2.2 = []
    ∧ (jobsOf prev target "upsert").filter isDelJob = [] := by
  have hf : eqFold "upsert" "replace" = false := by decide
  constructor
  · simp [diff, diffDels, hf]
  · simp [jobsOf, hf, List.filter_append, filter_del_map_add, filter_del_map_upd]

/-- Claim C9: diffing a map against itself yields three empty sets and an
empty job list in every mode: reconciliation is a fixed point. -/
theorem diff_self_fixed_point (S : UserMap) (mode : String) (h : NodupKeys S) :
    diff S S mode = ([], [], []) ∧ jobsOf S S mode = [] := by
  have hl : ∀ p ∈ S, lookupUser S p.1 = some p.2 := by
    intro p hp
    obtain ⟨k, v⟩ := p
    exact lookup_of_mem_nodup h hp
  obtain ⟨ha, hu⟩ := diffAdds_upds_nil_of_found S S hl
  have hd : delScan S S = [] := by
    refine delScan_nil_of_found S S ?_
    intro p hp
    obtain ⟨k, v⟩ := p
    exact lookup_ne_none_of_mem hp
  have hdels : diffDels S S mode = [] := by
    unfold diffDels
    rw [hd]
    simp
  exact ⟨by simp [diff, ha, hu, hdels], by simp [jobsOf, ha, hu, hdels]⟩

/-- Witness for C9 at a concrete three-entry map in replace mode. -/
theorem diff_self_fixed_point_witness :
    NodupKeys prevC1
      ∧ (diff prevC1 prevC1 "replace" = ([], [], [])
          ∧ jobsOf prevC1 prevC1 "replace" = []) :=
  ⟨by decide, diff_self_fixed_point prevC1 "replace" (by decide)⟩

/-- Claim C10: an Add job (and the add leg of an Update, which goes through
the same `addUser`) for a record whose Proto is neither vless nor vmess
issues no client call and fails with the unsupported-proto error, so the
job increments Summary.Failed and leaves the working Applied Set copy
unchanged. -/
theorem unsupported_proto_add (cp : CPFun) (tags : List String) (u : User)
    (h1 : u.Proto ≠ "vless") (h2 : u.Proto ≠ "vmess") :
    addUser cp tags u = ([], some ("unsupported proto: " ++ u.Proto))
    ∧ runJob cp tags (Job.add u) = ([], some ("unsupported proto: " ++ u.Proto))
    ∧ ∀ (acc : RunSt), execJob cp tags acc (Job.add u)
        = (acc.1, { acc.2.1 with Failed := acc.2.1.Failed + 1 }, acc.2.2) := by
  have ha : addUser cp tags u = ([], some ("unsupported proto: " ++ u.Proto)) := by
    simp [addUser, h1, h2]
  have hr : runJob cp tags (Job.add u)
      = ([], some ("unsupported proto: " ++ u.Proto)) := by
    show withRetry 3 (fun _ => addUser cp tags u) = _
    simp only [ha]
    rfl
  refine ⟨ha, hr, ?_⟩
  intro acc
  simp only [execJob, hr]
  simp

/-- Witness for C10 at a concrete trojan record against a concrete
all-success control plane. -/
theorem unsupported_proto_add_witness :
    uTroj.Proto ≠ "vless" ∧ uTroj.Proto ≠ "vmess"
      ∧ runJob cpNone ["in-0"] (Job.add uTroj)
          = ([], some ("unsupported proto: " ++ uTroj.Proto)) :=
  ⟨by decide, by decide,
    (unsupported_proto_add cpNone ["in-0"] uTroj (by decide) (by decide)).2.1⟩

end XrayAdmin
